import Mathlib

set_option maxRecDepth 8000

/- Verification of the adguard_rule plugin (src/dispatcher/dispatcher.go,
   package adguard_rule).  Go strings are modelled as lists of characters;
   the Go standard-library string helpers the plugin uses are translated
   below, specialised to the arguments that occur at the call sites. -/

/-- Character list of a string literal, for readable rule text. -/
def cl (s : String) : List Char := s.data

/-- ASCII portion of Go's unicode.IsSpace, which covers every character
occurring in the rule files and API strings this development evaluates. -/
def isSpaceChar (c : Char) : Bool :=
  c == ' ' || c == '\t' || c == '\n' || c == '\r' || c == '\x0b' || c == '\x0c'

/-- Go strings.TrimSpace. -/
def trimSpace (l : List Char) : List Char :=
  ((l.dropWhile isSpaceChar).reverse.dropWhile isSpaceChar).reverse

/-- Go strings.HasPrefix on character lists. -/
def listHasPfx : List Char → List Char → Bool
  | _, [] => true
  | [], _ :: _ => false
  | c :: l, d :: p => c == d && listHasPfx l p

/-- Go strings.TrimPrefix on character lists. -/
def dropPfx (l p : List Char) : List Char :=
  if listHasPfx l p then l.drop p.length else l

/-- Go strings.HasSuffix on character lists. -/
def listHasSfx (l s : List Char) : Bool :=
  listHasPfx l.reverse s.reverse

/-- Go strings.Contains on character lists. -/
def containsSub : List Char → List Char → Bool
  | [], sub => sub.isEmpty
  | c :: rest, sub => listHasPfx (c :: rest) sub || containsSub rest sub

/-- Go strings.ContainsAny(line, "0123456789") as used in parseRules. -/
def containsAnyDigit (l : List Char) : Bool :=
  l.any fun c => (cl "0123456789").contains c

/-- Accumulator-based splitter behind Go strings.Fields. -/
def fieldsAux : List Char → List Char → List (List Char)
  | [], acc => if acc.isEmpty then [] else [acc.reverse]
  | c :: rest, acc =>
    if isSpaceChar c then
      if acc.isEmpty then fieldsAux rest [] else acc.reverse :: fieldsAux rest []
    else fieldsAux rest (c :: acc)

/-- Go strings.Fields. -/
def fields (l : List Char) : List (List Char) := fieldsAux l []

/-- Go strings.ReplaceAll specialised to the one-character-old patterns used
by convertToMosdnsRule (old is "." or "*"; for a single-character pattern
Go's left-to-right non-overlapping replacement is exactly this map). -/
def replaceAllOne (l : List Char) (old : Char) (rep : List Char) : List Char :=
  match l with
  | [] => []
  | c :: rest => (if c == old then rep else [c]) ++ replaceAllOne rest old rep

/-- Lexicographic byte order of Go string comparison (rule IDs are ASCII). -/
def leStr : List Char → List Char → Bool
  | [], _ => true
  | _ :: _, [] => false
  | a :: arest, b :: brest => if a = b then leStr arest brest else decide (a < b)

/- Adguard rule syntax recognizers; each models one of the anchored Go
regular expressions declared next to parseRules. -/

/-- Character class w of Go regexp (ASCII word character). -/
def isWordChar (c : Char) : Bool := c.isAlpha || c.isDigit || c == '_'

/-- Character class of the domain part in blockRuleRegex and allowRuleRegex. -/
def isDomChar (c : Char) : Bool := isWordChar c || c == '.' || c == '-' || c == '*'

/-- Character class of fullMatchRegex. -/
def isBareChar (c : Char) : Bool := isWordChar c || c == '.' || c == '-'

/-- FindStringSubmatch of blockRuleRegex, anchored: two pipes, a nonempty
run of domain characters, a final caret; returns capture group 1. -/
def blockRuleFind (line : List Char) : Option (List Char) :=
  match line with
  | '|' :: '|' :: rest =>
    if rest.getLast? = some '^' ∧ rest.dropLast ≠ [] ∧ rest.dropLast.all isDomChar then
      some rest.dropLast
    else none
  | _ => none

/-- FindStringSubmatch of allowRuleRegex: two at-signs followed by the
block-rule shape. -/
def allowRuleFind (line : List Char) : Option (List Char) :=
  match line with
  | '@' :: '@' :: rest => blockRuleFind rest
  | _ => none

/-- FindStringSubmatch of regexRuleRegex: a slash, a greedy capture of the
rest, a final slash; returns capture group 1. -/
def regexRuleFind (line : List Char) : Option (List Char) :=
  match line with
  | '/' :: rest =>
    if rest.getLast? = some '/' then some rest.dropLast else none
  | _ => none

/-- FindStringSubmatch of fullMatchRegex: a nonempty run of bare domain
characters spanning the whole line. -/
def fullMatchFind (line : List Char) : Option (List Char) :=
  if line ≠ [] ∧ line.all isBareChar then some line else none

/-- cleanDomain from dispatcher.go: strip a leading star-dot, then a
leading dot. -/
def cleanDomain (d : List Char) : List Char :=
  dropPfx (dropPfx d (cl "*.")) (cl ".")

/-- convertToMosdnsRule from dispatcher.go: with a star present, escape dots
and widen stars and emit a regexp rule, otherwise emit a domain rule. -/
def convertToMosdnsRule (d : List Char) : List Char :=
  if containsSub d (cl "*") then
    cl "regexp:" ++ replaceAllOne (replaceAllOne d '.' (cl "\\.")) '*' (cl ".*")
  else cl "domain:" ++ d

/-- Modelled from the spec: the mix matcher of pkg/matcher/domain (not in
src/) holds three indices, populated from full, domain and regexp rules. -/
structure MixMatcher where
  full : List (List Char)
  sfxs : List (List Char)
  regexps : List (List Char)
deriving DecidableEq

/-- A fresh matcher as produced by NewDomainMixMatcher. -/
def MixMatcher.empty : MixMatcher := ⟨[], [], []⟩

/-- Modelled from the spec: MixMatcher.Add of pkg/matcher/domain (not in
src/) dispatches on the rule text, storing a full rule in the exact index,
a domain rule in the suffix index and a regexp rule, when its pattern
compiles according to the oracle, in the regex index; any other rule fails.
The compileOk oracle stands for Go regexp compilation, which is external. -/
def MixMatcher.add (compileOk : List Char → Bool) (m : MixMatcher)
    (rule : List Char) : Option MixMatcher :=
  if listHasPfx rule (cl "full:") then
    some { m with full := dropPfx rule (cl "full:") :: m.full }
  else if listHasPfx rule (cl "domain:") then
    some { m with sfxs := dropPfx rule (cl "domain:") :: m.sfxs }
  else if listHasPfx rule (cl "regexp:") then
    let pat := dropPfx rule (cl "regexp:")
    if compileOk pat then some { m with regexps := pat :: m.regexps } else none
  else none

/-- Modelled from the spec: matching of pkg/matcher/domain (not in src/); a
full rule matches the exact domain, a domain rule matches the domain itself
or any dot-separated subdomain of it, a regexp rule matches according to the
rmatch oracle, which stands for the external Go regexp engine. -/
def MixMatcher.matches (rmatch : List Char → List Char → Bool)
    (m : MixMatcher) (d : List Char) : Bool :=
  (m.full.any fun s => decide (s = d)) ||
  (m.sfxs.any fun s => decide (d = s) || listHasSfx d ('.' :: s)) ||
  (m.regexps.any fun p => rmatch p d)

/-- State threaded through parseRules: the running count plus the two
matcher builders being filled. -/
structure ParseSt where
  count : Nat
  allowM : MixMatcher
  denyM : MixMatcher
deriving DecidableEq

/-- One iteration of the scanner loop of parseRules from dispatcher.go.  The
nested hosts-style check of the source (outer digit-and-loopback test, inner
field-count test) is flattened into one conjunction; both code paths fall
through to the cosmetic check exactly when the conjunction fails. -/
def parseLine (compileOk : List Char → Bool) (st : ParseSt)
    (raw : List Char) : ParseSt :=
  let line := trimSpace raw
  if line = [] ∨ listHasPfx line (cl "!") = true ∨ listHasPfx line (cl "#") = true then
    st
  else if containsAnyDigit line = true ∧
      (containsSub line (cl "127.0.0.1") = true ∨ containsSub line (cl "0.0.0.0") = true ∨
        containsSub line (cl "::") = true) ∧
      (fields line).length > 1 then
    st
  else if containsSub line (cl "#?#") = true ∨ containsSub line (cl "##") = true ∨
      containsSub line (cl "$$") = true then
    st
  else
    match allowRuleFind line with
    | some dom =>
      let rule := convertToMosdnsRule (cleanDomain dom)
      if listHasPfx rule (cl "regexp:") = true ∧
          compileOk (dropPfx rule (cl "regexp:")) = false then st
      else
        match st.allowM.add compileOk rule with
        | some m => { st with allowM := m, count := st.count + 1 }
        | none => st
    | none =>
    match blockRuleFind line with
    | some dom =>
      let rule := convertToMosdnsRule (cleanDomain dom)
      if listHasPfx rule (cl "regexp:") = true ∧
          compileOk (dropPfx rule (cl "regexp:")) = false then st
      else
        match st.denyM.add compileOk rule with
        | some m => { st with denyM := m, count := st.count + 1 }
        | none => st
    | none =>
    match regexRuleFind line with
    | some pat =>
      if compileOk pat = false then st
      else
        match st.denyM.add compileOk (cl "regexp:" ++ pat) with
        | some m => { st with denyM := m, count := st.count + 1 }
        | none => st
    | none =>
    match fullMatchFind line with
    | some dom =>
      if containsSub dom (cl ".") = true ∧ listHasPfx dom (cl "*") = false ∧
          listHasSfx dom (cl "*") = false then
        match st.denyM.add compileOk (cl "full:" ++ dom) with
        | some m => { st with denyM := m, count := st.count + 1 }
        | none => st
      else st
    | none => st

/-- parseRules from dispatcher.go over the scanned lines of the input. -/
def parseRules (compileOk : List Char → Bool) (lines : List (List Char))
    (st : ParseSt) : ParseSt :=
  lines.foldl (parseLine compileOk) st

/-- Match of AdguardRule from dispatcher.go: the allow matcher wins, then
the deny matcher blocks, otherwise the query passes. -/
def matchDomain (rmatch : List Char → List Char → Bool)
    (allowM denyM : MixMatcher) (d : List Char) : Bool :=
  if MixMatcher.matches rmatch allowM d then false
  else if MixMatcher.matches rmatch denyM d then true
  else false

/- Data model of the plugin: OnlineRule from dispatcher.go, with time.Time
modelled as a natural number whose zero value is the zero time, and Go int
fields as integers. -/

/-- OnlineRule from dispatcher.go.  localPath carries the json-ignored
field of the source struct. -/
structure OnlineRule where
  id : List Char
  name : List Char
  url : List Char
  enabled : Bool
  autoUpdate : Bool
  updateIntervalHours : Int
  ruleCount : Int
  lastUpdated : Nat
  localPath : List Char
deriving DecidableEq

/-- One manifest entry as produced by MarshalJSON of OnlineRule: the same
fields except that localPath is json-ignored and last_updated is an
optional field, omitted when the timestamp is zero. -/
structure JsonRule where
  id : List Char
  name : List Char
  url : List Char
  enabled : Bool
  autoUpdate : Bool
  updateIntervalHours : Int
  ruleCount : Int
  lastUpdated : Option Nat
deriving DecidableEq

/-- MarshalJSON of OnlineRule from dispatcher.go: a zero timestamp is
replaced by a nil pointer marked omitempty, so the field disappears. -/
def marshalRule (r : OnlineRule) : JsonRule :=
  { id := r.id, name := r.name, url := r.url, enabled := r.enabled,
    autoUpdate := r.autoUpdate, updateIntervalHours := r.updateIntervalHours,
    ruleCount := r.ruleCount,
    lastUpdated := if r.lastUpdated = 0 then none else some r.lastUpdated }

/-- Decoding one manifest entry with encoding/json: an absent last_updated
key leaves the zero time, and localPath is never decoded. -/
def unmarshalRule (j : JsonRule) : OnlineRule :=
  { id := j.id, name := j.name, url := j.url, enabled := j.enabled,
    autoUpdate := j.autoUpdate, updateIntervalHours := j.updateIntervalHours,
    ruleCount := j.ruleCount,
    lastUpdated := j.lastUpdated.getD 0, localPath := [] }

/-- Key set of the JSON object encoding/json emits for one rule: the seven
always-present tags of OnlineRule plus last_updated when not omitted. -/
def ruleJsonKeys (j : JsonRule) : List String :=
  ["id", "name", "url", "enabled", "auto_update", "update_interval_hours",
    "rule_count"] ++
  (match j.lastUpdated with
   | none => []
   | some _ => ["last_updated"])

/-- filepath.Join of the working directory and a file name as used for
rule files (the configured dir carries no trailing separator). -/
def joinPath (dir file : List Char) : List Char := dir ++ '/' :: file

/-- Map lookup onlineRules id of the source; the in-memory map is modelled
as a list of rules keyed by their id field. -/
def findRule : List OnlineRule → List Char → Option OnlineRule
  | [], _ => none
  | r :: rest, i => if r.id = i then some r else findRule rest i

/-- In-place mutation of the map entry with the given id: every other
entry is untouched. -/
def replaceById (st : List OnlineRule) (i : List Char) (r : OnlineRule) :
    List OnlineRule :=
  st.map fun x => if x.id = i then r else x

/-- Map assignment onlineRules newRule.ID = newRule of the source. -/
def upsertById (st : List OnlineRule) (r : OnlineRule) : List OnlineRule :=
  if (findRule st r.id).isSome then replaceById st r.id r else st ++ [r]

/-- Map deletion delete(onlineRules, id) of the source. -/
def removeById (st : List OnlineRule) (i : List Char) : List OnlineRule :=
  st.filter fun x => decide (x.id ≠ i)

/- Persistence: saveConfig sorts the rules ascending by id before writing
the manifest; loadConfig reads it back and recomputes every localPath. -/

/-- Ordered insertion behind the sort of saveConfig. -/
def insertRuleSorted (r : OnlineRule) : List OnlineRule → List OnlineRule
  | [] => [r]
  | x :: rest =>
    if leStr r.id x.id then r :: x :: rest else x :: insertRuleSorted r rest

/-- sort.Slice of saveConfig: ascending by id. -/
def sortById : List OnlineRule → List OnlineRule
  | [] => []
  | x :: rest => insertRuleSorted x (sortById rest)

/-- saveConfig from dispatcher.go at the manifest level: serialize the
rules sorted ascending by id (the atomic temp-file write is filesystem
behaviour outside the model). -/
def saveConfig (st : List OnlineRule) : List JsonRule :=
  (sortById st).map marshalRule

/-- loadConfig from dispatcher.go at the manifest level: decode every
entry and derive its localPath from the working directory and its id. -/
def loadConfig (dir : List Char) (manifest : List JsonRule) :
    List OnlineRule :=
  manifest.map fun j =>
    let r := unmarshalRule j
    { r with localPath := joinPath dir (r.id ++ cl ".rules") }

/- Control API handlers from dispatcher.go.  Each handler is a function of
the decoded request (None models a JSON decode failure) and the in-memory
rule map, returning the HTTP status, the new map, and the JSON body of a
success response (None models an error object body).  saveOk stands for
the outcome of the saveConfig disk write; freshId stands for uuid.New. -/

/-- POST rules handler. -/
def postRules (dir freshId : List Char) (saveOk : Bool)
    (st : List OnlineRule) (body : Option OnlineRule) :
    Nat × List OnlineRule × Option OnlineRule :=
  match body with
  | none => (400, st, none)
  | some nr0 =>
    let nr1 := { nr0 with name := trimSpace nr0.name, url := trimSpace nr0.url }
    if nr1.name = [] ∨ nr1.url = [] then (400, st, none)
    else if nr1.updateIntervalHours < (0 : Int) then (400, st, none)
    else
      let nr2 := { nr1 with
                   id := freshId,
                   localPath := joinPath dir (freshId ++ cl ".rules"),
                   lastUpdated := 0 }
      let st2 := upsertById st nr2
      if saveOk then (201, st2, some nr2) else (500, st2, none)

/-- PUT rules id handler. -/
def putRules (saveOk : Bool) (st : List OnlineRule) (i : List Char)
    (body : Option OnlineRule) : Nat × List OnlineRule × Option OnlineRule :=
  match body with
  | none => (400, st, none)
  | some u0 =>
    let u1 := { u0 with name := trimSpace u0.name, url := trimSpace u0.url }
    if u1.name = [] ∨ u1.url = [] then (400, st, none)
    else if u1.updateIntervalHours < (0 : Int) then (400, st, none)
    else
      match findRule st i with
      | none => (404, st, none)
      | some old =>
        let upd := { old with
                     name := u1.name, url := u1.url,
                     enabled := u1.enabled, autoUpdate := u1.autoUpdate,
                     updateIntervalHours := u1.updateIntervalHours }
        let st2 := replaceById st i upd
        if saveOk then (200, st2, some upd) else (500, st2, none)

/-- DELETE rules id handler (the best-effort local file removal is
filesystem behaviour outside the model). -/
def deleteRules (saveOk : Bool) (st : List OnlineRule) (i : List Char) :
    Nat × List OnlineRule :=
  match findRule st i with
  | none => (404, st)
  | some _ =>
    let st2 := removeById st i
    if saveOk then (204, st2) else (500, st2)

/- updateAllRuleCounts from dispatcher.go.  readFile maps a local path to
the scanned lines of the file, or None when the open fails; the loop
refreshes every rule count, disabled lists included, and remembers whether
any count changed, in which case the manifest save is kicked off. -/

/-- updateAllRuleCounts from dispatcher.go: the refreshed rule list paired
with the changed flag that triggers the asynchronous save. -/
def updateAllRuleCounts (readFile : List Char → Option (List (List Char)))
    (compileOk : List Char → Bool) :
    List OnlineRule → List OnlineRule × Bool
  | [] => ([], false)
  | r :: rest =>
    let (rest2, changed2) := updateAllRuleCounts readFile compileOk rest
    match readFile r.localPath with
    | none =>
      if r.ruleCount ≠ 0 then ({ r with ruleCount := 0 } :: rest2, true)
      else (r :: rest2, changed2)
    | some lines =>
      let cnt : Int := (parseRules compileOk lines ⟨0, .empty, .empty⟩).count
      if r.ruleCount ≠ cnt then ({ r with ruleCount := cnt } :: rest2, true)
      else (r :: rest2, changed2)

/-- The rule count updateAllRuleCounts computes for one rule. -/
def refreshedCount (readFile : List Char → Option (List (List Char)))
    (compileOk : List Char → Bool) (r : OnlineRule) : Int :=
  match readFile r.localPath with
  | none => 0
  | some lines => (parseRules compileOk lines ⟨0, .empty, .empty⟩).count

/- Concurrency model for the snapshot swap.  Match (dispatcher.go) reads
allowMatcher then denyMatcher under mu.RLock; reloadAllRules publishes a
freshly built pair under mu.Lock, and reloadMu serializes reloads, so one
writer suffices.  Matcher pairs are identified by the generation number of
the reload that built them; a fresh generation is taken from a counter at
every publication, so a published pair is never rebuilt or mutated.  The
step relation below embeds the RWMutex protocol: a reader enters only
while the writer is out, and the writer enters only when no reader is
inside. -/

/-- Program counter of one goroutine executing Match. -/
inductive RPC where
  | idle
  | locked
  | gotAllow (g : Nat)
  | done (g1 g2 : Nat)
deriving DecidableEq

/-- Program counter of the single reloading goroutine, inside the section
that publishes the new matcher pair. -/
inductive WPC where
  | idle
  | locked
  | wroteAllow
deriving DecidableEq

/-- A reader holds the read lock from acquisition until its second read. -/
def rActive : RPC → Bool
  | .locked => true
  | .gotAllow _ => true
  | _ => false

/-- Global state: the published pair (by generation), the generation
counter, the reloader and every Match caller. -/
structure Sys where
  allowGen : Nat
  denyGen : Nat
  nextGen : Nat
  writer : WPC
  rdrs : List RPC
deriving DecidableEq

/-- Initial state: the pair built by the startup reload, no call running. -/
def initSys (n : Nat) : Sys :=
  { allowGen := 0, denyGen := 0, nextGen := 1, writer := .idle,
    rdrs := List.replicate n .idle }

/-- Interleaving semantics of Match against the publication section of
reloadAllRules under the RWMutex. -/
inductive SysStep : Sys → Sys → Prop where
  | rlock (s : Sys) (i : Nat) (h : s.rdrs.get? i = some .idle)
      (hw : s.writer = .idle) :
      SysStep s { s with rdrs := s.rdrs.set i .locked }
  | rreadAllow (s : Sys) (i : Nat) (h : s.rdrs.get? i = some .locked) :
      SysStep s { s with rdrs := s.rdrs.set i (.gotAllow s.allowGen) }
  | rreadDeny (s : Sys) (i : Nat) (g : Nat)
      (h : s.rdrs.get? i = some (.gotAllow g)) :
      SysStep s { s with rdrs := s.rdrs.set i (.done g s.denyGen) }
  | wlock (s : Sys) (hw : s.writer = .idle)
      (hr : ∀ pc ∈ s.rdrs, rActive pc = false) :
      SysStep s { s with writer := .locked }
  | wwriteAllow (s : Sys) (hw : s.writer = .locked) :
      SysStep s { s with writer := .wroteAllow, allowGen := s.nextGen }
  | wwriteDeny (s : Sys) (hw : s.writer = .wroteAllow) :
      SysStep s { s with
                  writer := .idle, denyGen := s.nextGen,
                  nextGen := s.nextGen + 1 }

/-- States reachable from the initial state with n Match callers. -/
inductive SysReach (n : Nat) : Sys → Prop where
  | init : SysReach n (initSys n)
  | step {s t : Sys} : SysReach n s → SysStep s t → SysReach n t

/-- Inductive invariant: while the writer publishes, no reader is inside;
outside publication the pair is consistent; a reader that has read the
allow side holds the current generation; and every finished reader
observed one generation. -/
def SysInv (s : Sys) : Prop :=
  (s.writer ≠ .idle → ∀ pc ∈ s.rdrs, rActive pc = false) ∧
  (s.writer = .idle → s.allowGen = s.denyGen) ∧
  (∀ g : Nat, RPC.gotAllow g ∈ s.rdrs → g = s.allowGen) ∧
  (s.writer = .wroteAllow → s.allowGen = s.nextGen) ∧
  (∀ g1 g2 : Nat, RPC.done g1 g2 ∈ s.rdrs → g1 = g2)

/-- Completed system state reached by one Match call against the initial
snapshot, used to instantiate the snapshot consistency theorem. -/
def c4WitnessSys : Sys :=
  { allowGen := 0, denyGen := 0, nextGen := 1, writer := .idle,
    rdrs := [RPC.done 0 0] }


/-- Result of parseRules on the single wildcard block line of scenario S3. -/
def c2ParseResult : ParseSt :=
  parseRules (fun _ => true) [cl "||*.tracker.net^"] ⟨0, .empty, .empty⟩

/-- A concrete rule with the zero timestamp, for instantiations. -/
def sampleRule : OnlineRule :=
  { id := cl "id1", name := cl "list", url := cl "http", enabled := true,
    autoUpdate := false, updateIntervalHours := 0, ruleCount := 0,
    lastUpdated := 0, localPath := cl "d/id1.rules" }

/-- A rule whose name trims to empty, for the validation-failure path. -/
def blankNameRule : OnlineRule := { sampleRule with name := cl "  " }

/-- A second concrete rule, with a smaller id and a nonzero timestamp. -/
def sampleRuleB : OnlineRule :=
  { id := cl "id0", name := cl "other", url := cl "http2", enabled := false,
    autoUpdate := true, updateIntervalHours := 4, ruleCount := 2,
    lastUpdated := 7, localPath := cl "d/id0.rules" }

theorem sysInv_init (n : Nat) : SysInv (initSys n) := by
  refine ⟨?_, ?_, ?_, ?_, ?_⟩
  · intro hne
    exact absurd rfl hne
  · intro _
    rfl
  · intro g hg
    simp only [initSys, List.mem_replicate] at hg
    exact absurd hg.2 (by simp)
  · intro hw
    exact absurd hw (by simp [initSys])
  · intro g1 g2 hg
    simp only [initSys, List.mem_replicate] at hg
    exact absurd hg.2 (by simp)

theorem sysInv_step {s t : Sys} (hs : SysInv s) (hst : SysStep s t) :
    SysInv t := by
  obtain ⟨h1, h2, h3, h4, h5⟩ := hs
  cases hst with
  | rlock i h hw =>
    refine ⟨?_, ?_, ?_, ?_, ?_⟩
    · intro hne
      exact absurd hw hne
    · intro _
      exact h2 hw
    · intro g hg
      rcases List.mem_or_eq_of_mem_set hg with hmem | heq
      · exact h3 g hmem
      · exact absurd heq (by simp)
    · intro hwa
      exact absurd (hw.symm.trans hwa) (by decide)
    · intro g1 g2 hg
      rcases List.mem_or_eq_of_mem_set hg with hmem | heq
      · exact h5 g1 g2 hmem
      · exact absurd heq (by simp)
  | rreadAllow i h =>
    refine ⟨?_, ?_, ?_, ?_, ?_⟩
    · intro hne pc hpc
      exact absurd (h1 hne _ (List.get?_mem h)) (by simp [rActive])
    · intro hw
      exact h2 hw
    · intro g hg
      rcases List.mem_or_eq_of_mem_set hg with hmem | heq
      · exact h3 g hmem
      · injection heq
    · intro hwa
      exact h4 hwa
    · intro g1 g2 hg
      rcases List.mem_or_eq_of_mem_set hg with hmem | heq
      · exact h5 g1 g2 hmem
      · exact absurd heq (by simp)
  | rreadDeny i g h =>
    have hmem : RPC.gotAllow g ∈ s.rdrs := List.get?_mem h
    have hwidle : s.writer = .idle := by
      by_contra hne
      exact absurd (h1 hne _ hmem) (by simp [rActive])
    have hg : g = s.allowGen := h3 g hmem
    have heqgen : s.allowGen = s.denyGen := h2 hwidle
    refine ⟨?_, ?_, ?_, ?_, ?_⟩
    · intro hne pc hpc
      exact absurd hwidle hne
    · intro _
      exact heqgen
    · intro g2 hg2
      rcases List.mem_or_eq_of_mem_set hg2 with hmem2 | heq
      · exact h3 g2 hmem2
      · exact absurd heq (by simp)
    · intro hwa
      exact h4 hwa
    · intro g1 g2 hg2
      rcases List.mem_or_eq_of_mem_set hg2 with hmem2 | heq
      · exact h5 g1 g2 hmem2
      · injection heq with e1 e2
        subst e1
        subst e2
        exact hg.trans heqgen
  | wlock hw hr =>
    refine ⟨?_, ?_, ?_, ?_, ?_⟩
    · intro _ pc hpc
      exact hr pc hpc
    · intro hwi
      exact absurd hwi (by simp)
    · intro g hg
      exact absurd (hr _ hg) (by simp [rActive])
    · intro hwa
      exact absurd hwa (by simp)
    · exact h5
  | wwriteAllow hw =>
    have hnr : ∀ pc ∈ s.rdrs, rActive pc = false := h1 (by rw [hw]; simp)
    refine ⟨?_, ?_, ?_, ?_, ?_⟩
    · intro _ pc hpc
      exact hnr pc hpc
    · intro hwi
      exact absurd hwi (by simp)
    · intro g hg
      exact absurd (hnr _ hg) (by simp [rActive])
    · intro _
      rfl
    · exact h5
  | wwriteDeny hw =>
    have hnr : ∀ pc ∈ s.rdrs, rActive pc = false := h1 (by rw [hw]; simp)
    have ha : s.allowGen = s.nextGen := h4 hw
    refine ⟨?_, ?_, ?_, ?_, ?_⟩
    · intro hne
      exact absurd rfl hne
    · intro _
      exact ha
    · intro g hg
      exact absurd (hnr _ hg) (by simp [rActive])
    · intro hwa
      exact absurd hwa (by simp)
    · exact h5

theorem sysReach_inv {n : Nat} {s : Sys} (h : SysReach n s) : SysInv s := by
  induction h with
  | init => exact sysInv_init n
  | step _ hstep ih => exact sysInv_step ih hstep

/-- Claim C4: every completed Match call observed an allow matcher and a deny
matcher published together by the same reload generation. -/
theorem snapshot_generation_consistent (n : Nat) (s : Sys) (g1 g2 : Nat)
    (hreach : SysReach n s) (hdone : RPC.done g1 g2 ∈ s.rdrs) : g1 = g2 :=
  (sysReach_inv hreach).2.2.2.2 g1 g2 hdone

theorem c4WitnessSys_reach : SysReach 1 c4WitnessSys := by
  have r0 : SysReach 1 (initSys 1) := .init
  have r1 := SysReach.step r0 (SysStep.rlock (initSys 1) 0 rfl rfl)
  have r2 := SysReach.step r1 (SysStep.rreadAllow _ 0 rfl)
  have r3 := SysReach.step r2 (SysStep.rreadDeny _ 0 0 rfl)
  exact r3

theorem snapshot_generation_consistent_witness :
    RPC.done 0 0 ∈ c4WitnessSys.rdrs ∧ (0 : Nat) = 0 :=
  ⟨by decide,
   snapshot_generation_consistent 1 c4WitnessSys 0 0 c4WitnessSys_reach
     (by decide)⟩

/-- Claim C1: the allow matcher always wins over the deny matcher, a deny hit
alone blocks, and no hit passes the query. -/
theorem allow_precedence (rmatch : List Char → List Char → Bool)
    (allowM denyM : MixMatcher) (d : List Char) :
    (MixMatcher.matches rmatch allowM d = true →
      matchDomain rmatch allowM denyM d = false) ∧
    (MixMatcher.matches rmatch allowM d = false →
      MixMatcher.matches rmatch denyM d = true →
      matchDomain rmatch allowM denyM d = true) ∧
    (MixMatcher.matches rmatch allowM d = false →
      MixMatcher.matches rmatch denyM d = false →
      matchDomain rmatch allowM denyM d = false) := by
  refine ⟨?_, ?_, ?_⟩
  · intro h1
    simp [matchDomain, h1]
  · intro h1 h2
    simp [matchDomain, h1, h2]
  · intro h1 h2
    simp [matchDomain, h1, h2]

theorem allow_precedence_witness :
    MixMatcher.matches (fun _ _ => false)
      ⟨[cl "a.com"], [], []⟩ (cl "a.com") = true ∧
    matchDomain (fun _ _ => false)
      ⟨[cl "a.com"], [], []⟩ ⟨[cl "a.com"], [], []⟩ (cl "a.com") = false :=
  ⟨by decide,
   (allow_precedence (fun _ _ => false) ⟨[cl "a.com"], [], []⟩
     ⟨[cl "a.com"], [], []⟩ (cl "a.com")).1 (by decide)⟩

/-- Claim C2 as stated is false: the block line with a leading wildcard is
cleaned before conversion, so no regexp rule reaches the deny builder and
the produced suffix rule does match tracker.net directly. -/
theorem wildcard_rule_counterexample :
    listHasPfx (convertToMosdnsRule (cleanDomain (cl "*.tracker.net")))
      (cl "regexp:") = false ∧
    c2ParseResult.denyM.regexps = [] ∧
    MixMatcher.matches (fun _ _ => false) c2ParseResult.denyM
      (cl "tracker.net") = true := by
  refine ⟨by decide, by decide, by decide⟩

/-- Claim C2 amended: the block line yields the suffix rule domain:tracker.net in
the deny builder, which matches x.tracker.net and y.z.tracker.net and also
tracker.net itself. -/
theorem wildcard_rule_amended :
    c2ParseResult.count = 1 ∧
    c2ParseResult.allowM = .empty ∧
    c2ParseResult.denyM = ⟨[], [cl "tracker.net"], []⟩ ∧
    MixMatcher.matches (fun _ _ => false) c2ParseResult.denyM
      (cl "x.tracker.net") = true ∧
    MixMatcher.matches (fun _ _ => false) c2ParseResult.denyM
      (cl "y.z.tracker.net") = true ∧
    MixMatcher.matches (fun _ _ => false) c2ParseResult.denyM
      (cl "tracker.net") = true := by
  refine ⟨by decide, by decide, by decide, by decide, by decide, by decide⟩

/-- Claim C7: a rule with the zero timestamp serializes without a last_updated
key and deserializes back to the zero timestamp. -/
theorem zero_timestamp_omitted (r : OnlineRule) (h : r.lastUpdated = 0) :
    (marshalRule r).lastUpdated = none ∧
    "last_updated" ∉ ruleJsonKeys (marshalRule r) ∧
    (unmarshalRule (marshalRule r)).lastUpdated = 0 := by
  refine ⟨by simp [marshalRule, h], ?_, by simp [marshalRule, unmarshalRule, h]⟩
  simp [ruleJsonKeys, marshalRule, h]

theorem zero_timestamp_omitted_witness :
    sampleRule.lastUpdated = 0 ∧
    (marshalRule sampleRule).lastUpdated = none :=
  ⟨rfl, (zero_timestamp_omitted sampleRule rfl).1⟩

/-- Claim C10: the count refresh visits every rule, enabled or not; an unopenable
file yields count zero, an openable one the freshly parsed count, and the
asynchronous save fires exactly when some count changed. -/
theorem update_rule_counts_refresh
    (readFile : List Char → Option (List (List Char)))
    (compileOk : List Char → Bool) (rules : List OnlineRule) :
    updateAllRuleCounts readFile compileOk rules =
      (rules.map (fun r =>
         { r with ruleCount := refreshedCount readFile compileOk r }),
       rules.any fun r =>
         decide (refreshedCount readFile compileOk r ≠ r.ruleCount)) := by
  induction rules with
  | nil => rfl
  | cons r rest ih =>
    simp only [updateAllRuleCounts, ih, List.map_cons, List.any_cons]
    cases hrf : readFile r.localPath with
    | none =>
      simp only [refreshedCount, hrf]
      by_cases hc : r.ruleCount = 0
      · have hr : ({ r with ruleCount := 0 } : OnlineRule) = r := by
          rw [← hc]
        simp [hc, hr]
      · simp [hc, Ne.symm hc]
    | some lines =>
      simp only [refreshedCount, hrf]
      by_cases hc :
          r.ruleCount =
            ((parseRules compileOk lines ⟨0, .empty, .empty⟩).count : Int)
      · have hr :
            ({ r with ruleCount :=
                ((parseRules compileOk lines ⟨0, .empty, .empty⟩).count : Int) } :
              OnlineRule) = r := by
          rw [← hc]
        simp [hc, hr]
      · simp [hc, Ne.symm hc]

theorem findRule_replaceById (st : List OnlineRule) (i : List Char)
    (r : OnlineRule) (hid : r.id = i) (old : OnlineRule)
    (h : findRule st i = some old) :
    findRule (replaceById st i r) i = some r := by
  induction st with
  | nil => simp [findRule] at h
  | cons x rest ih =>
    by_cases hx : x.id = i
    · simp [replaceById, findRule, hx, hid]
    · simp only [findRule, if_neg hx] at h
      have hstep : replaceById (x :: rest) i r = x :: replaceById rest i r := by
        simp [replaceById, hx]
      rw [hstep]
      simp only [findRule, if_neg hx]
      exact ih h

theorem findRule_append (st : List OnlineRule) (i : List Char)
    (r : OnlineRule) (hid : r.id = i) (h : findRule st i = none) :
    findRule (st ++ [r]) i = some r := by
  induction st with
  | nil => simp [findRule, hid]
  | cons x rest ih =>
    by_cases hx : x.id = i
    · simp [findRule, hx] at h
    · simp only [findRule, if_neg hx] at h
      simp [findRule, hx, ih h]

theorem findRule_upsertById (st : List OnlineRule) (r : OnlineRule) :
    findRule (upsertById st r) r.id = some r := by
  unfold upsertById
  cases hf : findRule st r.id with
  | none => simp [hf, findRule_append st r.id r rfl hf]
  | some old => simp [hf, findRule_replaceById st r.id r rfl old hf]

/-- Claim C5: a POST whose body validates stores and, when the save succeeds,
returns a rule carrying the fresh UUID, the localPath derived from it and
the zero timestamp, whatever the client supplied for those fields. -/
theorem post_assigns_fresh_identity (dir freshId : List Char)
    (saveOk : Bool) (st : List OnlineRule) (body : OnlineRule)
    (hn : trimSpace body.name ≠ []) (hu : trimSpace body.url ≠ [])
    (hi : ¬ body.updateIntervalHours < 0) :
    ∃ stored : OnlineRule,
      postRules dir freshId saveOk st (some body) =
        ((if saveOk then 201 else 500), upsertById st stored,
          if saveOk then some stored else none) ∧
      stored.id = freshId ∧
      stored.localPath = joinPath dir (freshId ++ cl ".rules") ∧
      stored.lastUpdated = 0 ∧
      findRule (upsertById st stored) freshId = some stored := by
  refine ⟨{ body with
            name := trimSpace body.name, url := trimSpace body.url,
            id := freshId,
            localPath := joinPath dir (freshId ++ cl ".rules"),
            lastUpdated := 0 }, ?_, rfl, rfl, rfl,
          findRule_upsertById st _⟩
  simp only [postRules]
  rw [if_neg (by simp [hn, hu]), if_neg hi]
  cases saveOk <;> simp

theorem post_assigns_fresh_identity_witness :
    trimSpace sampleRule.name ≠ [] ∧ trimSpace sampleRule.url ≠ [] ∧
    ∃ stored : OnlineRule,
      postRules (cl "d") (cl "f1") true [] (some sampleRule) =
        ((if true then 201 else 500), upsertById [] stored,
          if true then some stored else none) ∧
      stored.id = cl "f1" ∧
      stored.localPath = joinPath (cl "d") (cl "f1" ++ cl ".rules") ∧
      stored.lastUpdated = 0 ∧
      findRule (upsertById [] stored) (cl "f1") = some stored :=
  ⟨by decide, by decide,
   post_assigns_fresh_identity (cl "d") (cl "f1") true [] sampleRule
     (by decide) (by decide) (by decide)⟩

/-- Claim C8: a body that fails to decode or validate leaves the rule set
untouched and yields 400 with an error body; an unknown id on a PUT whose
body decodes and validates, or on a DELETE, yields 404 and no change. -/
theorem api_error_paths_no_state_change (dir freshId : List Char)
    (saveOk : Bool) (st : List OnlineRule) (i : List Char) :
    postRules dir freshId saveOk st none = (400, st, none) ∧
    putRules saveOk st i none = (400, st, none) ∧
    (∀ body : OnlineRule,
      trimSpace body.name = [] ∨ trimSpace body.url = [] ∨
        body.updateIntervalHours < 0 →
      postRules dir freshId saveOk st (some body) = (400, st, none) ∧
      putRules saveOk st i (some body) = (400, st, none)) ∧
    (∀ body : OnlineRule, findRule st i = none →
      trimSpace body.name ≠ [] → trimSpace body.url ≠ [] →
      ¬ body.updateIntervalHours < 0 →
      putRules saveOk st i (some body) = (404, st, none)) ∧
    (findRule st i = none → deleteRules saveOk st i = (404, st)) := by
  refine ⟨rfl, rfl, ?_, ?_, ?_⟩
  · intro body hbad
    have hpost : postRules dir freshId saveOk st (some body) = (400, st, none) := by
      simp only [postRules]
      by_cases h1 : trimSpace body.name = [] ∨ trimSpace body.url = []
      · rw [if_pos h1]
      · rw [if_neg h1]
        have hb : body.updateIntervalHours < 0 := by
          rcases hbad with hb | hb | hb
          · exact absurd (Or.inl hb) h1
          · exact absurd (Or.inr hb) h1
          · exact hb
        rw [if_pos hb]
    have hput : putRules saveOk st i (some body) = (400, st, none) := by
      simp only [putRules]
      by_cases h1 : trimSpace body.name = [] ∨ trimSpace body.url = []
      · rw [if_pos h1]
      · rw [if_neg h1]
        have hb : body.updateIntervalHours < 0 := by
          rcases hbad with hb | hb | hb
          · exact absurd (Or.inl hb) h1
          · exact absurd (Or.inr hb) h1
          · exact hb
        rw [if_pos hb]
    exact ⟨hpost, hput⟩
  · intro body hnone hn hu hi
    simp only [putRules]
    rw [if_neg (by simp [hn, hu]), if_neg hi, hnone]
  · intro hnone
    simp only [deleteRules]
    rw [hnone]

theorem api_error_paths_witness :
    (trimSpace blankNameRule.name = [] ∨ trimSpace blankNameRule.url = [] ∨
      blankNameRule.updateIntervalHours < 0) ∧
    postRules (cl "d") (cl "f") true [sampleRule] (some blankNameRule) =
      (400, [sampleRule], none) ∧
    findRule [sampleRule] (cl "zz") = none ∧
    deleteRules true [sampleRule] (cl "zz") = (404, [sampleRule]) :=
  ⟨Or.inl (by decide),
   ((api_error_paths_no_state_change (cl "d") (cl "f") true [sampleRule]
       (cl "zz")).2.2.1 blankNameRule (Or.inl (by decide))).1,
   by decide,
   (api_error_paths_no_state_change (cl "d") (cl "f") true [sampleRule]
       (cl "zz")).2.2.2.2 (by decide)⟩

theorem mem_replaceById_of_ne (st : List OnlineRule) (i : List Char)
    (upd : OnlineRule) (r : OnlineRule) (hr : r ∈ st) (hne : r.id ≠ i) :
    r ∈ replaceById st i upd := by
  have : (if r.id = i then upd else r) ∈ replaceById st i upd :=
    List.mem_map_of_mem _ hr
  rwa [if_neg hne] at this

theorem mem_replaceById_cases (st : List OnlineRule) (i : List Char)
    (upd : OnlineRule) (r : OnlineRule) (hr : r ∈ replaceById st i upd) :
    r = upd ∨ (r ∈ st ∧ r.id ≠ i) := by
  rcases List.mem_map.mp hr with ⟨x, hx, hfx⟩
  by_cases hxi : x.id = i
  · rw [if_pos hxi] at hfx
    exact Or.inl hfx.symm
  · rw [if_neg hxi] at hfx
    subst hfx
    exact Or.inr ⟨hx, hxi⟩

/-- Claim C9: a successful PUT replaces exactly the five request fields of the
addressed rule, keeps its identity fields, and leaves every other rule in
the set untouched. -/
theorem put_updates_exact_fields (st : List OnlineRule) (i : List Char)
    (body : OnlineRule) (old : OnlineRule)
    (hn : trimSpace body.name ≠ []) (hu : trimSpace body.url ≠ [])
    (hi : ¬ body.updateIntervalHours < 0)
    (hfind : findRule st i = some old) :
    ∃ upd : OnlineRule,
      putRules true st i (some body) = (200, replaceById st i upd, some upd) ∧
      upd.name = trimSpace body.name ∧ upd.url = trimSpace body.url ∧
      upd.enabled = body.enabled ∧ upd.autoUpdate = body.autoUpdate ∧
      upd.updateIntervalHours = body.updateIntervalHours ∧
      upd.id = old.id ∧ upd.ruleCount = old.ruleCount ∧
      upd.lastUpdated = old.lastUpdated ∧ upd.localPath = old.localPath ∧
      (∀ r ∈ st, r.id ≠ i → r ∈ replaceById st i upd) ∧
      (∀ r ∈ replaceById st i upd, r = upd ∨ (r ∈ st ∧ r.id ≠ i)) := by
  refine ⟨{ old with
            name := trimSpace body.name, url := trimSpace body.url,
            enabled := body.enabled, autoUpdate := body.autoUpdate,
            updateIntervalHours := body.updateIntervalHours },
          ?_, rfl, rfl, rfl, rfl, rfl, rfl, rfl, rfl, rfl,
          fun r hr hne => mem_replaceById_of_ne st i _ r hr hne,
          fun r hr => mem_replaceById_cases st i _ r hr⟩
  simp only [putRules]
  rw [if_neg (by simp [hn, hu]), if_neg hi, hfind]
  simp

theorem put_updates_exact_fields_witness :
    trimSpace sampleRule.name ≠ [] ∧
    findRule [sampleRule] (cl "id1") = some sampleRule ∧
    ∃ upd : OnlineRule,
      putRules true [sampleRule] (cl "id1") (some sampleRule) =
        (200, replaceById [sampleRule] (cl "id1") upd, some upd) ∧
      upd.name = trimSpace sampleRule.name ∧
      upd.url = trimSpace sampleRule.url ∧
      upd.enabled = sampleRule.enabled ∧
      upd.autoUpdate = sampleRule.autoUpdate ∧
      upd.updateIntervalHours = sampleRule.updateIntervalHours ∧
      upd.id = sampleRule.id ∧ upd.ruleCount = sampleRule.ruleCount ∧
      upd.lastUpdated = sampleRule.lastUpdated ∧
      upd.localPath = sampleRule.localPath ∧
      (∀ r ∈ [sampleRule], r.id ≠ cl "id1" →
        r ∈ replaceById [sampleRule] (cl "id1") upd) ∧
      (∀ r ∈ replaceById [sampleRule] (cl "id1") upd,
        r = upd ∨ (r ∈ [sampleRule] ∧ r.id ≠ cl "id1")) :=
  ⟨by decide, by decide,
   put_updates_exact_fields [sampleRule] (cl "id1") sampleRule sampleRule
     (by decide) (by decide) (by decide) (by decide)⟩

/-- A line satisfying one of the three skip tests of parseRules leaves the
parser state unchanged. -/
theorem parseLine_skip (compileOk : List Char → Bool) (st : ParseSt)
    (raw : List Char)
    (h : trimSpace raw = [] ∨ listHasPfx (trimSpace raw) (cl "!") = true ∨
      listHasPfx (trimSpace raw) (cl "#") = true ∨
      containsSub (trimSpace raw) (cl "#?#") = true ∨
      containsSub (trimSpace raw) (cl "##") = true ∨
      containsSub (trimSpace raw) (cl "$$") = true ∨
      (containsAnyDigit (trimSpace raw) = true ∧
        (containsSub (trimSpace raw) (cl "127.0.0.1") = true ∨
          containsSub (trimSpace raw) (cl "0.0.0.0") = true ∨
          containsSub (trimSpace raw) (cl "::") = true) ∧
        (fields (trimSpace raw)).length > 1)) :
    parseLine compileOk st raw = st := by
  simp only [parseLine]
  by_cases h1 : trimSpace raw = [] ∨
      listHasPfx (trimSpace raw) (cl "!") = true ∨
      listHasPfx (trimSpace raw) (cl "#") = true
  · rw [if_pos h1]
  · rw [if_neg h1]
    by_cases h2 : containsAnyDigit (trimSpace raw) = true ∧
        (containsSub (trimSpace raw) (cl "127.0.0.1") = true ∨
          containsSub (trimSpace raw) (cl "0.0.0.0") = true ∨
          containsSub (trimSpace raw) (cl "::") = true) ∧
        (fields (trimSpace raw)).length > 1
    · rw [if_pos h2]
    · rw [if_neg h2]
      by_cases h3 : containsSub (trimSpace raw) (cl "#?#") = true ∨
          containsSub (trimSpace raw) (cl "##") = true ∨
          containsSub (trimSpace raw) (cl "$$") = true
      · rw [if_pos h3]
      · exfalso
        rcases h with hc | hc | hc | hc | hc | hc | hc
        · exact h1 (Or.inl hc)
        · exact h1 (Or.inr (Or.inl hc))
        · exact h1 (Or.inr (Or.inr hc))
        · exact h3 (Or.inl hc)
        · exact h3 (Or.inr (Or.inl hc))
        · exact h3 (Or.inr (Or.inr hc))
        · exact h2 hc

/-- Claim C3: a line whose trimmed form is empty or a comment, or carries a
cosmetic marker, or looks like a multi-field hosts entry, adds nothing to
either builder and leaves the count alone; the four scenario S4 lines
produce zero rules from empty builders. -/
theorem skip_lines_no_rule (compileOk : List Char → Bool) (st : ParseSt)
    (raw : List Char)
    (h : trimSpace raw = [] ∨ listHasPfx (trimSpace raw) (cl "!") = true ∨
      listHasPfx (trimSpace raw) (cl "#") = true ∨
      containsSub (trimSpace raw) (cl "#?#") = true ∨
      containsSub (trimSpace raw) (cl "##") = true ∨
      containsSub (trimSpace raw) (cl "$$") = true ∨
      (containsAnyDigit (trimSpace raw) = true ∧
        (containsSub (trimSpace raw) (cl "127.0.0.1") = true ∨
          containsSub (trimSpace raw) (cl "0.0.0.0") = true ∨
          containsSub (trimSpace raw) (cl "::") = true) ∧
        (fields (trimSpace raw)).length > 1)) :
    parseLine compileOk st raw = st ∧
    parseRules compileOk
      [cl "! comment", cl "# note", cl "0.0.0.0 bad.com evil.com",
        cl "bad.com##div.ad"] ⟨0, .empty, .empty⟩ =
      ⟨0, .empty, .empty⟩ := by
  refine ⟨parseLine_skip compileOk st raw h, ?_⟩
  show parseLine compileOk (parseLine compileOk (parseLine compileOk
    (parseLine compileOk ⟨0, .empty, .empty⟩ (cl "! comment")) (cl "# note"))
    (cl "0.0.0.0 bad.com evil.com")) (cl "bad.com##div.ad") =
    ⟨0, .empty, .empty⟩
  rw [parseLine_skip compileOk _ _
    (Or.inr (Or.inr (Or.inr (Or.inr (Or.inl (by decide))))))]
  rw [parseLine_skip compileOk _ _
    (Or.inr (Or.inr (Or.inr (Or.inr (Or.inr (Or.inr (by decide)))))))]
  rw [parseLine_skip compileOk _ _ (Or.inr (Or.inr (Or.inl (by decide))))]
  rw [parseLine_skip compileOk _ _ (Or.inr (Or.inl (by decide)))]

theorem skip_lines_no_rule_witness :
    (trimSpace (cl "0.0.0.0 x.com y.com") = [] ∨
      listHasPfx (trimSpace (cl "0.0.0.0 x.com y.com")) (cl "!") = true ∨
      listHasPfx (trimSpace (cl "0.0.0.0 x.com y.com")) (cl "#") = true ∨
      containsSub (trimSpace (cl "0.0.0.0 x.com y.com")) (cl "#?#") = true ∨
      containsSub (trimSpace (cl "0.0.0.0 x.com y.com")) (cl "##") = true ∨
      containsSub (trimSpace (cl "0.0.0.0 x.com y.com")) (cl "$$") = true ∨
      (containsAnyDigit (trimSpace (cl "0.0.0.0 x.com y.com")) = true ∧
        (containsSub (trimSpace (cl "0.0.0.0 x.com y.com")) (cl "127.0.0.1") = true ∨
          containsSub (trimSpace (cl "0.0.0.0 x.com y.com")) (cl "0.0.0.0") = true ∨
          containsSub (trimSpace (cl "0.0.0.0 x.com y.com")) (cl "::") = true) ∧
        (fields (trimSpace (cl "0.0.0.0 x.com y.com"))).length > 1)) ∧
    parseLine (fun _ => true) ⟨0, .empty, .empty⟩
      (cl "0.0.0.0 x.com y.com") = ⟨0, .empty, .empty⟩ :=
  ⟨Or.inr (Or.inr (Or.inr (Or.inr (Or.inr (Or.inr (by decide)))))),
   (skip_lines_no_rule (fun _ => true) ⟨0, .empty, .empty⟩
     (cl "0.0.0.0 x.com y.com")
     (Or.inr (Or.inr (Or.inr (Or.inr (Or.inr (Or.inr (by decide)))))))).1⟩

theorem leStr_total (a b : List Char) : leStr a b = true ∨ leStr b a = true := by
  induction a generalizing b with
  | nil => exact Or.inl rfl
  | cons c arest ih =>
    cases b with
    | nil => exact Or.inr rfl
    | cons d brest =>
      by_cases hcd : c = d
      · subst hcd
        rcases ih brest with h | h
        · exact Or.inl (by simp [leStr, h])
        · exact Or.inr (by simp [leStr, h])
      · rcases lt_trichotomy c d with hlt | heq | hgt
        · exact Or.inl (by simp [leStr, hcd, hlt])
        · exact absurd heq hcd
        · exact Or.inr (by simp [leStr, Ne.symm hcd, hgt])

theorem leStr_trans {a b c : List Char} (h1 : leStr a b = true)
    (h2 : leStr b c = true) : leStr a c = true := by
  induction a generalizing b c with
  | nil => rfl
  | cons x arest ih =>
    cases b with
    | nil => simp [leStr] at h1
    | cons y brest =>
      cases c with
      | nil => simp [leStr] at h2
      | cons z crest =>
        by_cases hxy : x = y
        · subst hxy
          simp only [leStr, if_pos rfl] at h1
          by_cases hyz : x = z
          · subst hyz
            simp only [leStr, if_pos rfl] at h2 ⊢
            exact ih h1 h2
          · simp only [leStr, if_neg hyz] at h2 ⊢
            exact h2
        · simp only [leStr, if_neg hxy] at h1
          have hx : x < y := of_decide_eq_true h1
          by_cases hyz : y = z
          · subst hyz
            simp only [leStr, if_neg hxy]
            exact decide_eq_true hx
          · simp only [leStr, if_neg hyz] at h2
            have hy : y < z := of_decide_eq_true h2
            have hxz : x < z := lt_trans hx hy
            simp only [leStr, if_neg (ne_of_lt hxz)]
            exact decide_eq_true hxz

theorem insertRuleSorted_perm (r : OnlineRule) (l : List OnlineRule) :
    (insertRuleSorted r l).Perm (r :: l) := by
  induction l with
  | nil => exact List.Perm.refl _
  | cons x rest ih =>
    simp only [insertRuleSorted]
    by_cases h : leStr r.id x.id = true
    · simp only [h, if_true]
      exact List.Perm.refl _
    · simp only [h, if_false]
      exact (ih.cons x).trans (List.Perm.swap r x rest)

theorem sortById_perm (l : List OnlineRule) : (sortById l).Perm l := by
  induction l with
  | nil => exact List.Perm.refl _
  | cons x rest ih =>
    exact (insertRuleSorted_perm x (sortById rest)).trans (ih.cons x)

theorem mem_insertRuleSorted {a r : OnlineRule} {l : List OnlineRule} :
    a ∈ insertRuleSorted r l ↔ a = r ∨ a ∈ l := by
  rw [(insertRuleSorted_perm r l).mem_iff, List.mem_cons]

theorem pairwise_insertRuleSorted (r : OnlineRule) (l : List OnlineRule)
    (h : l.Pairwise (fun a b => leStr a.id b.id = true)) :
    (insertRuleSorted r l).Pairwise (fun a b => leStr a.id b.id = true) := by
  induction l with
  | nil => simp [insertRuleSorted]
  | cons x rest ih =>
    rcases List.pairwise_cons.mp h with ⟨hx, hrest⟩
    simp only [insertRuleSorted]
    by_cases hc : leStr r.id x.id = true
    · simp only [hc, if_true]
      refine List.pairwise_cons.mpr ⟨?_, h⟩
      intro b hb
      rcases List.mem_cons.mp hb with hbx | hbr
      · subst hbx
        exact hc
      · exact leStr_trans hc (hx b hbr)
    · simp only [hc, if_false]
      have hxr : leStr x.id r.id = true :=
        (leStr_total r.id x.id).resolve_left hc
      refine List.pairwise_cons.mpr ⟨?_, ih hrest⟩
      intro b hb
      rcases mem_insertRuleSorted.mp hb with hbr | hbrest
      · subst hbr
        exact hxr
      · exact hx b hbrest

theorem sortById_pairwise (l : List OnlineRule) :
    (sortById l).Pairwise (fun a b => leStr a.id b.id = true) := by
  induction l with
  | nil => exact List.Pairwise.nil
  | cons x rest ih => exact pairwise_insertRuleSorted x (sortById rest) ih

theorem marshal_unmarshal (r : OnlineRule) :
    unmarshalRule (marshalRule r) = { r with localPath := [] } := by
  by_cases h : r.lastUpdated = 0
  · simp [marshalRule, unmarshalRule, h]
  · simp [marshalRule, unmarshalRule, h]

/-- Claim C6: saving the manifest and loading it back yields the same rule set
up to ordering, and the saved manifest is ordered ascending by id. -/
theorem save_load_roundtrip (dir : List Char) (st : List OnlineRule)
    (h : ∀ r ∈ st, r.localPath = joinPath dir (r.id ++ cl ".rules")) :
    (loadConfig dir (saveConfig st)).Perm st ∧
    (saveConfig st).Pairwise (fun a b => leStr a.id b.id = true) := by
  constructor
  · have hmap : loadConfig dir (saveConfig st) = sortById st := by
      unfold loadConfig saveConfig
      rw [List.map_map]
      have hid :
          ∀ r ∈ sortById st,
            ((fun j =>
                let u := unmarshalRule j
                { u with localPath := joinPath dir (u.id ++ cl ".rules") }) ∘
              marshalRule) r = id r := by
        intro r hr
        have hmem : r ∈ st := (sortById_perm st).mem_iff.mp hr
        simp only [Function.comp, marshal_unmarshal, id]
        rw [← h r hmem]
      rw [List.map_congr_left hid, List.map_id]
    rw [hmap]
    exact sortById_perm st
  · unfold saveConfig
    rw [List.pairwise_map]
    exact sortById_pairwise st

theorem save_load_roundtrip_witness :
    (∀ r ∈ [{ sampleRule with localPath := joinPath (cl "d") (cl "id1" ++ cl ".rules") },
            { sampleRuleB with localPath := joinPath (cl "d") (cl "id0" ++ cl ".rules") }],
      r.localPath = joinPath (cl "d") (r.id ++ cl ".rules")) ∧
    (loadConfig (cl "d") (saveConfig
      [{ sampleRule with localPath := joinPath (cl "d") (cl "id1" ++ cl ".rules") },
       { sampleRuleB with localPath := joinPath (cl "d") (cl "id0" ++ cl ".rules") }])).Perm
      [{ sampleRule with localPath := joinPath (cl "d") (cl "id1" ++ cl ".rules") },
       { sampleRuleB with localPath := joinPath (cl "d") (cl "id0" ++ cl ".rules") }] ∧
    (saveConfig
      [{ sampleRule with localPath := joinPath (cl "d") (cl "id1" ++ cl ".rules") },
       { sampleRuleB with localPath := joinPath (cl "d") (cl "id0" ++ cl ".rules") }]).Pairwise
      (fun a b => leStr a.id b.id = true) :=
  ⟨by decide,
   (save_load_roundtrip (cl "d") _ (by decide)).1,
   (save_load_roundtrip (cl "d") _ (by decide)).2⟩
